import Mathlib

/-!
Verification of the fact-extraction and question-synthesis pipeline of
`main.py` (a quiz generator that turns plain text into open-answer,
multiple-choice and true/false items).

Modelling conventions:
* Python strings are modelled as `List Nat` of Unicode code points.
  `str s` converts a Lean string literal to this representation.
* Python's `re` character class `\s` is modelled by the ASCII whitespace
  characters (space, tab, newline, carriage return, vertical tab, form
  feed); all inputs appearing in the claims only contain these.
  The regex metacharacter `.` excludes the newline, as in Python.
* `re.IGNORECASE` is modelled by ASCII lower-casing; the keywords of the
  English patterns are pure ASCII.
* `random.Random` is a Mersenne Twister in CPython; it is modelled by an
  explicitly threaded deterministic state (`Nat`) driven by a linear
  congruential generator.  `rng.shuffle` is modelled as a deterministic
  selection shuffle and `rng.choice` as a deterministic pick; the claims
  depend only on the source being deterministic, on `shuffle` producing a
  permutation of its input and on `choice` picking a member of its input,
  which hold for CPython's implementations as well.
-/

namespace QGen

/-- Code points of a Lean string literal, the representation of Python strings. -/
def str (s : String) : List Nat := s.data.map Char.toNat

/-- Python's `\s` (and `str.split()` / `str.strip()` whitespace), restricted to ASCII. -/
def isSpaceB (c : Nat) : Bool := c = 32 || c = 9 || c = 10 || c = 13 || c = 11 || c = 12

/-- The sentence-final punctuation class `[.!?。！？]` of `_SENTENCE_SPLIT_RE`. -/
def isTermB (c : Nat) : Bool :=
  c = 46 || c = 33 || c = 63 || c = 12290 || c = 65281 || c = 65311

/-- ASCII lower-casing, the model of `re.IGNORECASE` for the ASCII keywords. -/
def lowerAscii (c : Nat) : Nat := if 65 ≤ c ∧ c ≤ 90 then c + 32 else c

/-- Python `s.lstrip()`: drop leading whitespace. -/
def lstrip (l : List Nat) : List Nat := l.dropWhile isSpaceB

/-- Python `s.rstrip()`: drop trailing whitespace. -/
def rstrip (l : List Nat) : List Nat := (l.reverse.dropWhile isSpaceB).reverse

/-- Python `s.strip()`: drop whitespace at both ends. -/
def strip (l : List Nat) : List Nat := rstrip (lstrip l)

/-! ## Segmenter (`split_sentences`) -/

/-- Python `text.split()`: split on whitespace runs, discarding empty pieces.
`cur` is the word accumulated so far. -/
def splitWsAux : List Nat → List Nat → List (List Nat)
  | cur, [] => if cur = [] then [] else [cur]
  | cur, c :: rest =>
    if isSpaceB c then
      if cur = [] then splitWsAux [] rest else cur :: splitWsAux [] rest
    else splitWsAux (cur ++ [c]) rest

/-- Model of `text.split()`. -/
def splitWs (l : List Nat) : List (List Nat) := splitWsAux [] l

/-- Python `" ".join(pieces)`: concatenate with single spaces (code point 32). -/
def join1 : List (List Nat) → List Nat
  | [] => []
  | [s] => s
  | s :: r :: rest => s ++ 32 :: join1 (r :: rest)

/-- Prepend a character to the first piece of a segmentation. -/
def consHead (c : Nat) : List (List Nat) → List (List Nat)
  | [] => []
  | s :: ss => (c :: s) :: ss

/-- Model of `_SENTENCE_SPLIT_RE.split`, the regex `(?<=[.!?。！？])\s+`: scan left to
right; a whitespace character whose predecessor is sentence-final punctuation
starts a (maximal, greedily consumed) separator run.  `skipping` records
whether the scan is inside such a run, `prev` is the previous character
(`32` initially: position 0 has no predecessor, so the lookbehind fails there,
and a space never belongs to the terminal class). -/
def sentSplitGo : Bool → Nat → List Nat → List (List Nat)
  | _, _, [] => [[]]
  | true, _, c :: rest =>
    if isSpaceB c then sentSplitGo true 32 rest
    else consHead c (sentSplitGo false c rest)
  | false, prev, c :: rest =>
    if isSpaceB c && isTermB prev then [] :: sentSplitGo true 32 rest
    else consHead c (sentSplitGo false c rest)

/-- Model of `split_sentences`: normalize whitespace runs to single spaces
(`" ".join(text.split())`), split at sentence boundaries, strip each piece and
drop the pieces that are empty after stripping. -/
def split_sentences (text : List Nat) : List (List Nat) :=
  let cleaned := join1 (splitWs text)
  if cleaned = [] then []
  else
    (sentSplitGo false 32 cleaned).filterMap fun s =>
      let t := strip s
      if t = [] then none else some t

/-! ## The extraction regexes

Every pattern of `extract_facts` has the shape
`^(?P<subject>.+?)SEP(?P<object>OBJ)PUNCT?$` where `SEP` is a keyword part,
`OBJ` is `.+?` (or `.+?(?:年|月|日).+?` for the Chinese born-on pattern) and
`PUNCT` is `\.` or `。`.  Backtracking order: the non-greedy subject grows
from length 1; for a fixed subject the separator alternatives are tried in
the engine's order (greedy `\s+` longest first, `了?` with the character
first); for a fixed separator the non-greedy object grows from its minimum;
`PUNCT?` makes the remainder `[]` or the single punctuation character.  `.`
matches any character except the newline. -/

/-- Try the separator alternatives in order, returning the first object capture. -/
def firstSome : List (List Nat) → (List Nat → Option (List Nat)) → Option (List Nat)
  | [], _ => none
  | r :: rs, f => match f r with | some ob => some ob | none => firstSome rs f

/-- Backtracking matcher for `^(.+?)SEP OBJ$`: `acc` is the subject consumed
so far; at each position the subject is extended by one (non-newline)
character and the separator-plus-object is tried on the remainder, so the
shortest subject wins. -/
def matchGeneric (sepAlts : List Nat → List (List Nat))
    (objT : List Nat → Option (List Nat)) :
    List Nat → List Nat → Option (List Nat × List Nat)
  | _, [] => none
  | acc, c :: rest =>
    if c = 10 then none
    else
      match firstSome (sepAlts rest) objT with
      | some ob => some (acc ++ [c], ob)
      | none => matchGeneric sepAlts objT (acc ++ [c]) rest

/-- Matcher for `(?P<object>.+?)P?$` with punctuation `p`: the non-greedy object takes
everything up to a final `p` if there is one (and at least one more
character), and everything otherwise; `.` excludes the newline. -/
def objTail (p : Nat) (r : List Nat) : Option (List Nat) :=
  if 2 ≤ r.length ∧ r.getLast? = some p ∧ ¬ (10 ∈ r.dropLast) then some r.dropLast
  else if 1 ≤ r.length ∧ ¬ (10 ∈ r) then some r
  else none

/-- Is the code point one of the date units `年`, `月`, `日`? -/
def isDateUnit (c : Nat) : Bool := c = 24180 || c = 26376 || c = 26085

/-- Search of `(?P<object>.+?(?:年|月|日).+?)。?$`: the first `.+?` (here
`acc ++ [c]`) grows from length 1 until a date-unit character follows whose
remainder admits the second `.+?` and the optional `。`. -/
def bornOnGo : List Nat → List Nat → Option (List Nat)
  | _, [] => none
  | _, [_] => none
  | acc, c :: u :: rest2 =>
    if c = 10 then none
    else if isDateUnit u then
      match objTail 12290 rest2 with
      | some b => some ((acc ++ [c]) ++ u :: b)
      | none => bornOnGo (acc ++ [c]) (u :: rest2)
    else bornOnGo (acc ++ [c]) (u :: rest2)

/-- Matcher for `(?P<object>.+?(?:年|月|日).+?)。?$`. -/
def bornOnObjTail (r : List Nat) : Option (List Nat) := bornOnGo [] r

/-- Match a literal keyword case-insensitively (ASCII folding) and return the
remainder. -/
def dropLitCI : List Nat → List Nat → Option (List Nat)
  | [], r => some r
  | _ :: _, [] => none
  | k :: ks, c :: cs => if lowerAscii c = k then dropLitCI ks cs else none

/-- Match a literal keyword exactly and return the remainder. -/
def dropLitEx : List Nat → List Nat → Option (List Nat)
  | [], r => some r
  | _ :: _, [] => none
  | k :: ks, c :: cs => if c = k then dropLitEx ks cs else none

/-- Length of the leading whitespace run. -/
def countSp (l : List Nat) : Nat := (l.takeWhile isSpaceB).length

/-- Separator `\s+KW\s+` of the English patterns.  The leading `\s+` must be
the maximal run (the keyword starts with a letter), the keyword is matched
case-insensitively, and the trailing greedy `\s+` yields one alternative per
consumed length, longest first. -/
def enSep (kw : List Nat) (r : List Nat) : List (List Nat) :=
  let m1 := countSp r
  if m1 = 0 then []
  else
    match dropLitCI kw (r.drop m1) with
    | none => []
    | some r2 =>
      let m2 := countSp r2
      (List.range m2).map fun t => r2.drop (m2 - t)

/-- A literal separator (the Chinese `是` and `出生于` keywords). -/
def litSep (kw : List Nat) (r : List Nat) : List (List Nat) :=
  match dropLitEx kw r with
  | none => []
  | some r2 => [r2]

/-- The `(?:于|在)` alternation: the two branches are tried in order; the
next character decides at most one of them. -/
def afterYuZai : List Nat → List (List Nat)
  | [] => []
  | c :: rest => if c = 20110 ∨ c = 22312 then [rest] else []

/-- Separator `出生(?:于|在)`. -/
def bornInSep (r : List Nat) : List (List Nat) :=
  match dropLitEx (str "出生") r with
  | none => []
  | some r2 => afterYuZai r2

/-- The greedy `了?`: consuming a following `了` is tried first. -/
def afterLiao : List Nat → List (List Nat)
  | [] => []
  | c :: rest => if c = 20102 then [rest] else []

/-- Separator `KW了?`: the greedy `了?` tries consuming a following `了`
first, then leaving it to the object. -/
def liaoSep (kw : List Nat) (r : List Nat) : List (List Nat) :=
  match dropLitEx kw r with
  | none => []
  | some r2 => afterLiao r2 ++ [r2]

/-! ## Facts and extraction -/

/-- The `Fact` dataclass. -/
structure Fact where
  subject : List Nat
  relation : List Nat
  obj : List Nat
  source_sentence : List Nat
  language : List Nat
deriving DecidableEq, Repr, Inhabited

/-- One entry of the ordered pattern table of `extract_facts`. -/
structure Pat where
  sep : List Nat → List (List Nat)
  objT : List Nat → Option (List Nat)
  relation : List Nat
  language : List Nat

/-- The ordered pattern table of `extract_facts` (order matters: first match
wins). -/
def patterns : List Pat :=
  [ ⟨enSep (str "is"), objTail 46, str "is", str "en"⟩,
    ⟨enSep (str "was born in"), objTail 46, str "born_in", str "en"⟩,
    ⟨enSep (str "was born on"), objTail 46, str "born_on", str "en"⟩,
    ⟨enSep (str "invented"), objTail 46, str "invented", str "en"⟩,
    ⟨enSep (str "created"), objTail 46, str "created", str "en"⟩,
    ⟨litSep (str "是"), objTail 12290, str "is", str "zh"⟩,
    ⟨bornInSep, objTail 12290, str "born_in", str "zh"⟩,
    ⟨litSep (str "出生于"), bornOnObjTail, str "born_on", str "zh"⟩,
    ⟨liaoSep (str "发明"), objTail 12290, str "invented", str "zh"⟩,
    ⟨liaoSep (str "创建"), objTail 12290, str "created", str "zh"⟩ ]

/-- Try the patterns in order on one sentence (the inner loop of
`extract_facts`, with its `break` after the first match). -/
def firstMatchGo : List Pat → List Nat → Option Fact
  | [], _ => none
  | p :: ps, s =>
    match matchGeneric p.sep p.objT [] s with
    | some (a, b) => some ⟨strip a, p.relation, strip b, s, p.language⟩
    | none => firstMatchGo ps s

/-- Zero or one fact for a sentence. -/
def firstMatch (s : List Nat) : Option Fact := firstMatchGo patterns s

/-- Model of `extract_facts`: at most one fact per sentence, in sentence order. -/
def extract_facts (sentences : List (List Nat)) : List Fact :=
  sentences.filterMap firstMatch

/-! ## Template tables

A Python format string with one placeholder is modelled by the pair of
segments around `{subject}`; a statement template by the three segments
around `{subject}` and `{obj}` (in every statement template the subject
precedes the object). -/

/-- Table `QA_TEMPLATES`: `dict.get` on relation, then on language. -/
def QA_TEMPLATES (relation language : List Nat) : Option (List Nat × List Nat) :=
  if relation = str "is" then
    if language = str "en" then some (str "What is ", str "?")
    else if language = str "zh" then some ([], str "是什么？") else none
  else if relation = str "born_in" then
    if language = str "en" then some (str "Where was ", str " born?")
    else if language = str "zh" then some ([], str "出生于哪里？") else none
  else if relation = str "born_on" then
    if language = str "en" then some (str "When was ", str " born?")
    else if language = str "zh" then some ([], str "出生于什么时候？") else none
  else if relation = str "invented" then
    if language = str "en" then some (str "What did ", str " invent?")
    else if language = str "zh" then some ([], str "发明了什么？") else none
  else if relation = str "created" then
    if language = str "en" then some (str "What did ", str " create?")
    else if language = str "zh" then some ([], str "创建了什么？") else none
  else none

/-- Table `MCQ_TEMPLATES`. -/
def MCQ_TEMPLATES (relation language : List Nat) : Option (List Nat × List Nat) :=
  if relation = str "is" then
    if language = str "en" then some (str "Which option describes ", str "?")
    else if language = str "zh" then some (str "以下哪项描述了", str "？") else none
  else if relation = str "born_in" then
    if language = str "en" then some (str "Where was ", str " born?")
    else if language = str "zh" then some ([], str "出生于哪里？") else none
  else if relation = str "born_on" then
    if language = str "en" then some (str "When was ", str " born?")
    else if language = str "zh" then some ([], str "出生于什么时候？") else none
  else if relation = str "invented" then
    if language = str "en" then some (str "What did ", str " invent?")
    else if language = str "zh" then some ([], str "发明了什么？") else none
  else if relation = str "created" then
    if language = str "en" then some (str "What did ", str " create?")
    else if language = str "zh" then some ([], str "创建了什么？") else none
  else none

/-- Table `STATEMENT_TEMPLATES`, as (before-subject, between, after-object) segments. -/
def STATEMENT_TEMPLATES (relation language : List Nat) :
    Option (List Nat × List Nat × List Nat) :=
  if relation = str "is" then
    if language = str "en" then some ([], str " is ", str ".")
    else if language = str "zh" then some ([], str "是", str "。") else none
  else if relation = str "born_in" then
    if language = str "en" then some ([], str " was born in ", str ".")
    else if language = str "zh" then some ([], str "出生于", str "。") else none
  else if relation = str "born_on" then
    if language = str "en" then some ([], str " was born on ", str ".")
    else if language = str "zh" then some ([], str "出生于", str "。") else none
  else if relation = str "invented" then
    if language = str "en" then some ([], str " invented ", str ".")
    else if language = str "zh" then some ([], str "发明了", str "。") else none
  else if relation = str "created" then
    if language = str "en" then some ([], str " created ", str ".")
    else if language = str "zh" then some ([], str "创建了", str "。") else none
  else none

/-- Rendering of `template.format(subject=...)` for a one-placeholder template. -/
def renderQ (t : List Nat × List Nat) (subject : List Nat) : List Nat :=
  t.1 ++ subject ++ t.2

/-- Rendering of `template.format(subject=..., obj=...)` for a statement template. -/
def renderS (t : List Nat × List Nat × List Nat) (subject obj : List Nat) : List Nat :=
  t.1 ++ subject ++ t.2.1 ++ obj ++ t.2.2

/-! ## Question records and the open-answer synthesizer -/

/-- The `Question` dataclass. -/
structure Question where
  question : List Nat
  answer : List Nat
  source_sentence : List Nat
deriving DecidableEq, Repr

/-- The `MultipleChoiceQuestion` dataclass. -/
structure MultipleChoiceQuestion where
  question : List Nat
  answer : List Nat
  options : List (List Nat)
  source_sentence : List Nat
deriving DecidableEq, Repr, Inhabited

/-- The `TrueFalseQuestion` dataclass. -/
structure TrueFalseQuestion where
  statement : List Nat
  answer : List Nat
  source_sentence : List Nat
deriving DecidableEq, Repr

/-- Model of `generate_qa`: one open question per fact with a usable template, in fact
order. -/
def generate_qa : List Fact → List Question
  | [] => []
  | fact :: rest =>
    match QA_TEMPLATES fact.relation fact.language with
    | none => generate_qa rest
    | some tmpl =>
      ⟨renderQ tmpl fact.subject, fact.obj, fact.source_sentence⟩ :: generate_qa rest

/-! ## The deterministic random source -/

/-- One step of the modelled pseudorandom source. -/
def lcg (s : Nat) : Nat := (s * 1103515245 + 12345) % 2 ^ 31

/-- Draw a number `< n` (for `n > 0`) and the successor state. -/
def randBelow (n s : Nat) : Nat × Nat := let s2 := lcg s; (s2 % n, s2)

/-- Selection shuffle: repeatedly draw an index, move that element to the
front of the output and recurse on the rest.  The fuel is the length of the
list.  The result is a permutation of the input; which permutation is
irrelevant to the claims. -/
def shuffleAux : Nat → List (List Nat) → Nat → List (List Nat) × Nat
  | 0, _, s => ([], s)
  | _ + 1, [], s => ([], s)
  | n + 1, x :: xs, s =>
    let (j, s2) := randBelow (x :: xs).length s
    let y := (x :: xs).getD j x
    let rest := (x :: xs).eraseIdx j
    let (tl, s3) := shuffleAux n rest s2
    (y :: tl, s3)

/-- Model of `rng.shuffle` (returning the shuffled list instead of mutating in place). -/
def shuffle (l : List (List Nat)) (s : Nat) : List (List Nat) × Nat :=
  shuffleAux l.length l s

/-- Model of `rng.choice` on a non-empty list. -/
def choiceFn (l : List (List Nat)) (s : Nat) : List Nat × Nat :=
  let (j, s2) := randBelow l.length s
  (l.getD j [], s2)

/-! ## Multiple-choice and true/false synthesizers -/

/-- The loop body of `generate_mcq`; `pool` is `[fact.obj for fact in facts]`
computed once from the full fact list, `s` the random-source state. -/
def mcqLoop (pool : List (List Nat)) (k : Nat) :
    List Fact → Nat → List MultipleChoiceQuestion × Nat
  | [], s => ([], s)
  | fact :: rest, s =>
    match MCQ_TEMPLATES fact.relation fact.language with
    | none => mcqLoop pool k rest s
    | some tmpl =>
      let candidates := pool.filter fun o => o ≠ fact.obj
      if candidates = [] then mcqLoop pool k rest s
      else
        let p1 := shuffle candidates s
        let choices := fact.obj :: p1.1.take (max 1 (k - 1))
        let p2 := shuffle choices p1.2
        let p3 := mcqLoop pool k rest p2.2
        (⟨renderQ tmpl fact.subject, fact.obj, p2.1, fact.source_sentence⟩ :: p3.1, p3.2)

/-- Model of `generate_mcq(facts, choices_count, rng)`.  `choices_count` is a `Nat`;
`max 1 (k - 1)` agrees with Python's `max(1, choices_count - 1)` for every
non-negative count. -/
def generate_mcq (facts : List Fact) (choices_count : Nat) (s : Nat) :
    List MultipleChoiceQuestion × Nat :=
  mcqLoop (facts.map Fact.obj) choices_count facts s

/-- The loop body of `generate_true_false`. -/
def tfLoop (pool : List (List Nat)) :
    List Fact → Nat → List TrueFalseQuestion × Nat
  | [], s => ([], s)
  | fact :: rest, s =>
    match STATEMENT_TEMPLATES fact.relation fact.language with
    | none => tfLoop pool rest s
    | some tmpl =>
      let trueQ : TrueFalseQuestion :=
        ⟨renderS tmpl fact.subject fact.obj,
         if fact.language = str "en" then str "True" else str "正确",
         fact.source_sentence⟩
      let candidates := pool.filter fun o => o ≠ fact.obj
      if candidates = [] then
        let p := tfLoop pool rest s
        (trueQ :: p.1, p.2)
      else
        let c1 := choiceFn candidates s
        let falseQ : TrueFalseQuestion :=
          ⟨renderS tmpl fact.subject c1.1,
           if fact.language = str "en" then str "False" else str "错误",
           fact.source_sentence⟩
        let p := tfLoop pool rest c1.2
        (trueQ :: falseQ :: p.1, p.2)

/-- Model of `generate_true_false(facts, rng)`. -/
def generate_true_false (facts : List Fact) (s : Nat) :
    List TrueFalseQuestion × Nat :=
  tfLoop (facts.map Fact.obj) facts s

/-- The `--question-type all` pipeline of `main`: segment, extract, then run
the three synthesizers in order, threading one random source seeded once
(`Random(args.seed)`, modelled by the state `seed`). -/
def runPipeline (text : List Nat) (choices : Nat) (seed : Nat) :
    List Question × List MultipleChoiceQuestion × List TrueFalseQuestion :=
  let sentences := split_sentences text
  let facts := extract_facts sentences
  let qa := generate_qa facts
  let mcq := generate_mcq facts choices seed
  let tf := generate_true_false facts mcq.2
  (qa, mcq.1, tf.1)

/-! ## Auxiliary definitions used by the statements -/

/-- Number of occurrences of `a` in `l`. -/
def countOcc (a : List Nat) (l : List (List Nat)) : Nat :=
  (l.filter fun x => x = a).length

/-- The ten (relation, language) pairs of the closed extraction vocabulary:
`{is, born_in, born_on, invented, created} × {en, zh}`. -/
def relLangPairs : List (List Nat × List Nat) :=
  [ (str "is", str "en"), (str "is", str "zh"),
    (str "born_in", str "en"), (str "born_in", str "zh"),
    (str "born_on", str "en"), (str "born_on", str "zh"),
    (str "invented", str "en"), (str "invented", str "zh"),
    (str "created", str "en"), (str "created", str "zh") ]

/-- Does a word end with a sentence-terminal punctuation mark? -/
def endsTerm (w : List Nat) : Bool := isTermB (w.getLastD 0)

/-- Group a whitespace-free word list into sentences: a sentence boundary
falls after every word that ends with terminal punctuation (this is where
the normalized text has a space preceded by a terminal mark). -/
def groupSents : List (List Nat) → List (List (List Nat))
  | [] => []
  | w :: ws =>
    if endsTerm w then [w] :: groupSents ws
    else
      match groupSents ws with
      | [] => [[w]]
      | g :: gs => (w :: g) :: gs

/-- A separator matcher only returns proper, non-empty-consumption suffixes
of its input. -/
def SepOk (sep : List Nat → List (List Nat)) : Prop :=
  ∀ rest r, r ∈ sep rest → ∃ mid, mid ≠ [] ∧ rest = mid ++ r

/-- An object matcher consumes its whole input except possibly one stripped
trailing `.` (46) or `。` (12290). -/
def ObjOk (objT : List Nat → Option (List Nat)) : Prop :=
  ∀ r ob, objT r = some ob →
    ∃ t, r = ob ++ t ∧ (t = [] ∨ t = [46] ∨ t = [12290])

/-- The shape the spec's True/False contract describes: for each fact in
order, a fact without a statement template contributes nothing; a fact with
one contributes its true statement (answer `"True"` for English, `"正确"`
otherwise), immediately followed by a false item — whose answer is the
corresponding false label and whose source sentence is the fact's — exactly
when some object in the pool differs from the fact's object. -/
inductive TFOk (pool : List (List Nat)) : List Fact → List TrueFalseQuestion → Prop
  | nil : TFOk pool [] []
  | skip {f : Fact} {rest out} :
      STATEMENT_TEMPLATES f.relation f.language = none →
      TFOk pool rest out → TFOk pool (f :: rest) out
  | trueOnly {f : Fact} {rest out tmpl} :
      STATEMENT_TEMPLATES f.relation f.language = some tmpl →
      (∀ o ∈ pool, o = f.obj) →
      TFOk pool rest out →
      TFOk pool (f :: rest)
        (⟨renderS tmpl f.subject f.obj,
          if f.language = str "en" then str "True" else str "正确",
          f.source_sentence⟩ :: out)
  | trueFalse {f : Fact} {rest out tmpl} {q : TrueFalseQuestion} :
      STATEMENT_TEMPLATES f.relation f.language = some tmpl →
      (∃ o ∈ pool, o ≠ f.obj) →
      q.answer = (if f.language = str "en" then str "False" else str "错误") →
      q.source_sentence = f.source_sentence →
      TFOk pool rest out →
      TFOk pool (f :: rest)
        (⟨renderS tmpl f.subject f.obj,
          if f.language = str "en" then str "True" else str "正确",
          f.source_sentence⟩ :: q :: out)

/-! ## Permutation properties of the modelled random source -/

theorem cons_getD_eraseIdx_perm (l : List (List Nat)) (j : Nat) (hj : j < l.length)
    (d : List Nat) : (l.getD j d :: l.eraseIdx j).Perm l := by
  have hd : l.getD j d = l[j] := by
    simp [List.getD_eq_getElem?_getD, List.getElem?_eq_getElem hj]
  rw [hd]
  exact ((List.erase_getElem hj).symm.cons _).trans
    (List.perm_cons_erase (List.getElem_mem hj)).symm

theorem shuffleAux_perm : ∀ (n : Nat) (l : List (List Nat)) (s : Nat),
    l.length ≤ n → ((shuffleAux n l s).1).Perm l := by
  intro n
  induction n with
  | zero =>
    intro l s hl
    have : l = [] := List.length_eq_zero.mp (Nat.le_zero.mp hl)
    subst this; simp [shuffleAux]
  | succ n ih =>
    intro l s hl
    match l with
    | [] => simp [shuffleAux]
    | x :: xs =>
      have hpos : 0 < (x :: xs).length := by simp
      have hj : (randBelow (x :: xs).length s).1 < (x :: xs).length :=
        Nat.mod_lt _ hpos
      have hlen : ((x :: xs).eraseIdx (randBelow (x :: xs).length s).1).length ≤ n := by
        have := List.length_eraseIdx_add_one hj
        omega
      have ihp := ih ((x :: xs).eraseIdx (randBelow (x :: xs).length s).1)
        (randBelow (x :: xs).length s).2 hlen
      simpa [shuffleAux] using (ihp.cons _).trans
        (cons_getD_eraseIdx_perm (x :: xs) _ hj x)

theorem shuffle_perm (l : List (List Nat)) (s : Nat) : ((shuffle l s).1).Perm l :=
  shuffleAux_perm l.length l s (Nat.le_refl _)

theorem countOcc_perm {l₁ l₂ : List (List Nat)} (h : l₁.Perm l₂) (a : List Nat) :
    countOcc a l₁ = countOcc a l₂ :=
  (h.filter _).length_eq

theorem countOcc_cons_self (a : List Nat) (l : List (List Nat)) :
    countOcc a (a :: l) = countOcc a l + 1 := by
  simp [countOcc]

theorem countOcc_eq_zero {a : List Nat} {l : List (List Nat)} (h : a ∉ l) :
    countOcc a l = 0 := by
  unfold countOcc
  rw [List.length_eq_zero, List.filter_eq_nil_iff]
  intro x hx
  simp only [decide_eq_true_eq]
  rintro rfl
  exact h hx

/-! ## Core invariant of the multiple-choice loop -/

theorem mcqLoop_core (pool : List (List Nat)) (k : Nat) :
    ∀ (facts : List Fact) (s : Nat) (q : MultipleChoiceQuestion),
      q ∈ (mcqLoop pool k facts s).1 →
      countOcc q.answer q.options = 1 ∧
      1 ≤ (pool.filter fun o => o ≠ q.answer).length ∧
      q.options.length =
        1 + min (max 1 (k - 1)) (pool.filter fun o => o ≠ q.answer).length := by
  intro facts
  induction facts with
  | nil => intro s q hq; simp [mcqLoop] at hq
  | cons fact rest ih =>
    intro s q hq
    rw [mcqLoop] at hq
    rcases htm : MCQ_TEMPLATES fact.relation fact.language with _ | tmpl
    · rw [htm] at hq; exact ih s q hq
    · rw [htm] at hq
      simp only at hq
      by_cases hc : (pool.filter fun o => o ≠ fact.obj) = []
      · rw [if_pos hc] at hq; exact ih s q hq
      · rw [if_neg hc] at hq
        rcases List.mem_cons.mp hq with hq | hq
        · subst hq
          simp only
          have hp1 : ((shuffle (pool.filter fun o => o ≠ fact.obj) s).1).Perm
              (pool.filter fun o => o ≠ fact.obj) := shuffle_perm _ _
          have hp2 := shuffle_perm
            (fact.obj ::
              ((shuffle (pool.filter fun o => o ≠ fact.obj) s).1.take (max 1 (k - 1))))
            (shuffle (pool.filter fun o => o ≠ fact.obj) s).2
          have hobj_not : fact.obj ∉
              ((shuffle (pool.filter fun o => o ≠ fact.obj) s).1.take (max 1 (k - 1))) := by
            intro hmem
            have hmem2 : fact.obj ∈ (pool.filter fun o => o ≠ fact.obj) :=
              hp1.mem_iff.mp (List.take_subset _ _ hmem)
            rcases List.mem_filter.mp hmem2 with ⟨-, hne⟩
            simp at hne
          have hcpos : 0 < (pool.filter fun o => o ≠ fact.obj).length :=
            List.length_pos.mpr hc
          refine ⟨?_, hcpos, ?_⟩
          · rw [countOcc_perm hp2, countOcc_cons_self, countOcc_eq_zero hobj_not]
          · rw [hp2.length_eq]
            simp only [List.length_cons, List.length_take, hp1.length_eq]
            omega
        · exact ih _ q hq

theorem tfLoop_ok (pool : List (List Nat)) :
    ∀ (facts : List Fact) (s : Nat), TFOk pool facts (tfLoop pool facts s).1 := by
  intro facts
  induction facts with
  | nil => intro s; exact TFOk.nil
  | cons fact rest ih =>
    intro s
    rw [tfLoop]
    rcases htm : STATEMENT_TEMPLATES fact.relation fact.language with _ | tmpl
    · exact TFOk.skip htm (ih s)
    · simp only
      by_cases hc : (pool.filter fun o => o ≠ fact.obj) = []
      · rw [if_pos hc]
        refine TFOk.trueOnly htm ?_ (ih s)
        intro o ho
        by_contra hne
        exact (List.filter_eq_nil_iff.mp hc o ho) (by simpa using hne)
      · rw [if_neg hc]
        refine TFOk.trueFalse htm ?_ rfl rfl (ih _)
        rcases List.exists_mem_of_ne_nil _ hc with ⟨o, ho⟩
        rcases List.mem_filter.mp ho with ⟨hop, hone⟩
        exact ⟨o, hop, by simpa using hone⟩

/-! ## Properties of `strip` -/

theorem rstrip_eq_rdropWhile (l : List Nat) : rstrip l = List.rdropWhile isSpaceB l := rfl

theorem dropWhile_head_not {p : Nat → Bool} {l : List Nat} {c : Nat} {t : List Nat}
    (h : l.dropWhile p = c :: t) : p c = false := by
  have h2 := List.dropWhile_idempotent p l
  rw [h, List.dropWhile_cons] at h2
  by_cases hc : p c = true
  · rw [if_pos hc] at h2
    have h3 : (t.dropWhile p).length ≤ t.length := (List.dropWhile_sublist p).length_le
    have h4 := congrArg List.length h2
    simp only [List.length_cons] at h4
    omega
  · simpa using hc

theorem mem_dropWhile_of_not {p : Nat → Bool} {c : Nat} :
    ∀ {l : List Nat}, c ∈ l → p c = false → c ∈ l.dropWhile p := by
  intro l
  induction l with
  | nil => intro h; simp at h
  | cons a t ih =>
    intro hmem hc
    rw [List.dropWhile_cons]
    by_cases ha : p a = true
    · rw [if_pos ha]
      rcases List.mem_cons.mp hmem with rfl | hmem
      · rw [hc] at ha; cases ha
      · exact ih hmem hc
    · rw [if_neg ha]; exact hmem

theorem strip_ne_nil {l : List Nat} {c : Nat} (hmem : c ∈ l)
    (hc : isSpaceB c = false) : strip l ≠ [] := by
  intro h
  unfold strip lstrip at h
  rw [rstrip_eq_rdropWhile, List.rdropWhile_eq_nil_iff] at h
  have := h c (mem_dropWhile_of_not hmem hc)
  rw [hc] at this; cases this

theorem strip_head_not {l : List Nat} {c : Nat} {t : List Nat}
    (h : strip l = c :: t) : isSpaceB c = false := by
  unfold strip at h
  rw [rstrip_eq_rdropWhile] at h
  rcases ( List.rdropWhile_prefix isSpaceB (lstrip l)) with ⟨t2, ht2⟩
  rw [h] at ht2
  have h5 : List.dropWhile isSpaceB l = c :: (t ++ t2) := ht2.symm
  exact dropWhile_head_not h5

theorem strip_idem (l : List Nat) : strip (strip l) = strip l := by
  unfold strip
  have h1 : lstrip (rstrip (lstrip l)) = rstrip (lstrip l) := by
    rcases hy : rstrip (lstrip l) with _ | ⟨c, t⟩
    · rfl
    · have hc : isSpaceB c = false := strip_head_not (show strip l = c :: t from hy)
      unfold lstrip
      rw [List.dropWhile_cons, hc]
      simp
  rw [h1, rstrip_eq_rdropWhile, rstrip_eq_rdropWhile, List.rdropWhile_idempotent]

/-! ## Span decomposition of the pattern matchers -/

theorem firstSome_some : ∀ (rs : List (List Nat)) (f : List Nat → Option (List Nat))
    (ob : List Nat), firstSome rs f = some ob → ∃ r ∈ rs, f r = some ob := by
  intro rs
  induction rs with
  | nil => intro f ob h; simp [firstSome] at h
  | cons r rs ih =>
    intro f ob h
    rw [firstSome] at h
    rcases hr : f r with _ | ob2
    · rw [hr] at h
      rcases ih f ob h with ⟨r2, hr2, hr2o⟩
      exact ⟨r2, List.mem_cons_of_mem _ hr2, hr2o⟩
    · rw [hr] at h
      simp only [Option.some.injEq] at h
      exact ⟨r, List.mem_cons_self _ _, h ▸ hr⟩

theorem matchGeneric_decomp {sep : List Nat → List (List Nat)}
    {objT : List Nat → Option (List Nat)} (hsep : SepOk sep) (hobj : ObjOk objT) :
    ∀ (s acc a b : List Nat), matchGeneric sep objT acc s = some (a, b) →
      ∃ pre mid t, pre ≠ [] ∧ mid ≠ [] ∧ a = acc ++ pre ∧
        s = pre ++ mid ++ b ++ t ∧ (t = [] ∨ t = [46] ∨ t = [12290]) := by
  intro s
  induction s with
  | nil => intro acc a b h; simp [matchGeneric] at h
  | cons c rest ih =>
    intro acc a b h
    rw [matchGeneric] at h
    by_cases h10 : c = 10
    · rw [if_pos h10] at h; cases h
    · rw [if_neg h10] at h
      rcases hfs : firstSome (sep rest) objT with _ | ob
      · rw [hfs] at h
        rcases ih (acc ++ [c]) a b h with ⟨pre, mid, t, hpre, hmid, ha, hs, ht⟩
        refine ⟨c :: pre, mid, t, by simp, hmid, by simp [ha], ?_, ht⟩
        simp only [List.cons_append]
        rw [← hs]
      · rw [hfs] at h
        simp only [Option.some.injEq, Prod.mk.injEq] at h
        rcases h with ⟨ha, hb⟩
        rcases firstSome_some _ _ _ hfs with ⟨r, hr, hro⟩
        rcases hsep rest r hr with ⟨mid, hmid, hrest⟩
        rcases hobj r b (hb ▸ hro) with ⟨t, hrt, ht⟩
        refine ⟨[c], mid, t, by simp, hmid, by simp [← ha], ?_, ht⟩
        simp only [List.cons_append, List.nil_append]
        rw [hrest, hrt]
        simp

theorem objTail_decomp (p : Nat) : ∀ (r ob : List Nat), objTail p r = some ob →
    r = ob ∨ r = ob ++ [p] := by
  intro r ob h
  unfold objTail at h
  split_ifs at h with h1 h2
  · rcases h1 with ⟨hlen, hlast, -⟩
    simp only [Option.some.injEq] at h
    have hne : r ≠ [] := by
      intro hnil; rw [hnil] at hlen; simp at hlen
    refine Or.inr ?_
    rw [← h]
    have hconcat := List.dropLast_concat_getLast hne
    rw [List.getLast?_eq_getLast r hne] at hlast
    simp only [Option.some.injEq] at hlast
    rw [hlast] at hconcat
    exact hconcat.symm
  · simp only [Option.some.injEq] at h
    exact Or.inl h

theorem objTail_ok (p : Nat) (hp : p = 46 ∨ p = 12290) : ObjOk (objTail p) := by
  intro r ob h
  rcases objTail_decomp p r ob h with h2 | h2
  · exact ⟨[], by simp [h2], Or.inl rfl⟩
  · exact ⟨[p], h2, by tauto⟩

theorem bornOnGo_ok : ∀ (r acc ob : List Nat), bornOnGo acc r = some ob →
    ∃ body t, ob = acc ++ body ∧ r = body ++ t ∧ (t = [] ∨ t = [12290]) := by
  intro r
  induction r with
  | nil => intro acc ob h; simp [bornOnGo] at h
  | cons c rest ih =>
    intro acc ob h
    rcases rest with _ | ⟨u, rest2⟩
    · simp [bornOnGo] at h
    · rw [bornOnGo] at h
      by_cases h10 : c = 10
      · rw [if_pos h10] at h; cases h
      · rw [if_neg h10] at h
        by_cases hu : isDateUnit u = true
        · rw [if_pos hu] at h
          rcases hot : objTail 12290 rest2 with _ | bb
          · simp only [hot] at h
            rcases ih (acc ++ [c]) ob h with ⟨body, t, hob, hr, ht⟩
            exact ⟨c :: body, t, by simp [hob], by simp [← hr], ht⟩
          · simp only [hot, Option.some.injEq] at h
            rcases objTail_decomp 12290 rest2 bb hot with hrt | hrt
            · exact ⟨c :: u :: bb, [], by simp [← h], by simp [hrt], Or.inl rfl⟩
            · exact ⟨c :: u :: bb, [12290], by simp [← h], by simp [hrt], Or.inr rfl⟩
        · rw [if_neg hu] at h
          rcases ih (acc ++ [c]) ob h with ⟨body, t, hob, hr, ht⟩
          exact ⟨c :: body, t, by simp [hob], by simp [← hr], ht⟩

theorem bornOnObjTail_ok : ObjOk bornOnObjTail := by
  intro r ob h
  rcases bornOnGo_ok r [] ob h with ⟨body, t, hob, hr, ht⟩
  simp only [List.nil_append] at hob
  exact ⟨t, hob ▸ hr, by tauto⟩

theorem dropLitCI_decomp : ∀ (kw x y : List Nat), dropLitCI kw x = some y →
    ∃ pre, x = pre ++ y ∧ pre.length = kw.length := by
  intro kw
  induction kw with
  | nil =>
    intro x y h
    simp only [dropLitCI, Option.some.injEq] at h
    exact ⟨[], by simp [h], rfl⟩
  | cons k ks ih =>
    intro x y h
    rcases x with _ | ⟨c, cs⟩
    · cases h
    · rw [dropLitCI] at h
      by_cases hc : lowerAscii c = k
      · rw [if_pos hc] at h
        rcases ih cs y h with ⟨pre, hcs, hlen⟩
        exact ⟨c :: pre, by simp [hcs], by simp [hlen]⟩
      · rw [if_neg hc] at h; cases h

theorem dropLitEx_decomp : ∀ (kw x y : List Nat), dropLitEx kw x = some y →
    ∃ pre, x = pre ++ y ∧ pre.length = kw.length := by
  intro kw
  induction kw with
  | nil =>
    intro x y h
    simp only [dropLitEx, Option.some.injEq] at h
    exact ⟨[], by simp [h], rfl⟩
  | cons k ks ih =>
    intro x y h
    rcases x with _ | ⟨c, cs⟩
    · cases h
    · rw [dropLitEx] at h
      by_cases hc : c = k
      · rw [if_pos hc] at h
        rcases ih cs y h with ⟨pre, hcs, hlen⟩
        exact ⟨c :: pre, by simp [hcs], by simp [hlen]⟩
      · rw [if_neg hc] at h; cases h

theorem enSep_sepOk (kw : List Nat) : SepOk (enSep kw) := by
  intro rest r hr
  unfold enSep at hr
  by_cases hm1 : countSp rest = 0
  · rw [if_pos hm1] at hr; simp at hr
  · rw [if_neg hm1] at hr
    rcases hd : dropLitCI kw (rest.drop (countSp rest)) with _ | r2
    · rw [hd] at hr; simp at hr
    · rw [hd] at hr
      rcases List.mem_map.mp hr with ⟨t, htm, rfl⟩
      have htlt : t < countSp r2 := List.mem_range.mp htm
      rcases dropLitCI_decomp kw _ r2 hd with ⟨pre, hpre, -⟩
      refine ⟨rest.take (countSp rest) ++ (pre ++ r2.take (countSp r2 - t)), ?_, ?_⟩
      · intro hnil
        rcases List.append_eq_nil.mp hnil with ⟨h1, -⟩
        rcases List.take_eq_nil_iff.mp h1 with h | h
        · exact hm1 h
        · rw [h] at hm1; exact hm1 rfl
      · conv =>
          lhs
          rw [← List.take_append_drop (countSp rest) rest]
        rw [hpre]
        have : r2.take (countSp r2 - t) ++ r2.drop (countSp r2 - t) = r2 :=
          List.take_append_drop _ _
        rw [← this]
        simp

theorem litSep_sepOk (kw : List Nat) (hk : kw ≠ []) : SepOk (litSep kw) := by
  intro rest r hr
  unfold litSep at hr
  rcases hd : dropLitEx kw rest with _ | r2
  · rw [hd] at hr; simp at hr
  · rw [hd] at hr
    simp only [List.mem_singleton] at hr
    subst hr
    rcases dropLitEx_decomp kw rest r hd with ⟨pre, hpre, hlen⟩
    refine ⟨pre, ?_, hpre⟩
    intro hnil
    rw [hnil] at hlen
    exact hk (List.length_eq_zero.mp hlen.symm)

theorem bornInSep_sepOk : SepOk bornInSep := by
  intro rest r hr
  unfold bornInSep at hr
  rcases hd : dropLitEx (str "出生") rest with _ | r2
  · simp only [hd] at hr; simp at hr
  · simp only [hd] at hr
    rcases r2 with _ | ⟨c, rest2⟩
    · simp [afterYuZai] at hr
    · rw [afterYuZai] at hr
      by_cases hc : c = 20110 ∨ c = 22312
      · rw [if_pos hc] at hr
        simp only [List.mem_singleton] at hr
        subst hr
        rcases dropLitEx_decomp _ rest _ hd with ⟨pre, hpre, -⟩
        exact ⟨pre ++ [c], by simp, by simp [hpre]⟩
      · rw [if_neg hc] at hr; simp at hr

theorem liaoSep_sepOk (kw : List Nat) (hk : kw ≠ []) : SepOk (liaoSep kw) := by
  intro rest r hr
  unfold liaoSep at hr
  rcases hd : dropLitEx kw rest with _ | r2
  · simp only [hd] at hr; simp at hr
  · simp only [hd] at hr
    rcases dropLitEx_decomp kw rest r2 hd with ⟨pre, hpre, hlen⟩
    have hprene : pre ≠ [] := by
      intro hnil
      rw [hnil] at hlen
      exact hk (List.length_eq_zero.mp hlen.symm)
    rcases List.mem_append.mp hr with hr | hr
    · rcases r2 with _ | ⟨c, rest2⟩
      · simp [afterLiao] at hr
      · rw [afterLiao] at hr
        by_cases hc : c = 20102
        · rw [if_pos hc] at hr
          simp only [List.mem_singleton] at hr
          subst hr
          exact ⟨pre ++ [c], by simp, by simp [hpre]⟩
        · rw [if_neg hc] at hr; simp at hr
    · simp only [List.mem_singleton] at hr
      subst hr
      exact ⟨pre, hprene, hpre⟩

theorem patterns_ok : ∀ p ∈ patterns, SepOk p.sep ∧ ObjOk p.objT := by
  intro p hp
  simp only [patterns, List.mem_cons, List.not_mem_nil, or_false] at hp
  rcases hp with h | h | h | h | h | h | h | h | h | h <;> subst h
  · exact ⟨enSep_sepOk _, objTail_ok 46 (Or.inl rfl)⟩
  · exact ⟨enSep_sepOk _, objTail_ok 46 (Or.inl rfl)⟩
  · exact ⟨enSep_sepOk _, objTail_ok 46 (Or.inl rfl)⟩
  · exact ⟨enSep_sepOk _, objTail_ok 46 (Or.inl rfl)⟩
  · exact ⟨enSep_sepOk _, objTail_ok 46 (Or.inl rfl)⟩
  · exact ⟨litSep_sepOk _ (by decide), objTail_ok 12290 (Or.inr rfl)⟩
  · exact ⟨bornInSep_sepOk, objTail_ok 12290 (Or.inr rfl)⟩
  · exact ⟨litSep_sepOk _ (by decide), bornOnObjTail_ok⟩
  · exact ⟨liaoSep_sepOk _ (by decide), objTail_ok 12290 (Or.inr rfl)⟩
  · exact ⟨liaoSep_sepOk _ (by decide), objTail_ok 12290 (Or.inr rfl)⟩

theorem firstMatchGo_spec : ∀ (ps : List Pat) (s : List Nat) (f : Fact),
    firstMatchGo ps s = some f →
    f.source_sentence = s ∧
    ∃ p ∈ ps, ∃ a b, matchGeneric p.sep p.objT [] s = some (a, b) ∧
      f.subject = strip a ∧ f.obj = strip b := by
  intro ps
  induction ps with
  | nil => intro s f h; simp [firstMatchGo] at h
  | cons p ps ih =>
    intro s f h
    rw [firstMatchGo] at h
    rcases hm : matchGeneric p.sep p.objT [] s with _ | ab
    · rw [hm] at h
      rcases ih s f h with ⟨hsrc, p', hp', hrest⟩
      exact ⟨hsrc, p', List.mem_cons_of_mem _ hp', hrest⟩
    · rw [hm] at h
      rcases ab with ⟨a, b⟩
      simp only [Option.some.injEq] at h
      subst h
      exact ⟨rfl, p, List.mem_cons_self _ _, a, b, hm, rfl, rfl⟩

/-- Shared decomposition: every extracted fact's source sentence splits into
the raw subject capture, a non-empty separator, the raw object capture and
an optionally stripped trailing `.` or `。`; the fact's fields are the
stripped captures. -/
theorem extract_fact_span (sentences : List (List Nat)) :
    ∀ f ∈ extract_facts sentences,
      ∃ a mid b t, f.source_sentence = a ++ mid ++ b ++ t ∧ a ≠ [] ∧ mid ≠ [] ∧
        f.subject = strip a ∧ f.obj = strip b ∧
        (t = [] ∨ t = [46] ∨ t = [12290]) := by
  intro f hf
  rcases List.mem_filterMap.mp hf with ⟨s, -, hm⟩
  rcases firstMatchGo_spec patterns s f hm with ⟨hsrc, p, hp, a, b, hmg, hsub, hob⟩
  rcases patterns_ok p hp with ⟨hsep, hobjt⟩
  rcases matchGeneric_decomp hsep hobjt s [] a b hmg with
    ⟨pre, mid, t, hpre, hmid, ha, hs, ht⟩
  simp only [List.nil_append] at ha
  subst ha
  exact ⟨a, mid, b, t, hsrc ▸ hs, hpre, hmid, hsub, hob, ht⟩

/-! ## Claims -/

/-- C1 (amended): every multiple-choice record has an options sequence of
length exactly `min (max 2 k) (1 + d)` where `d` is the size of the fact's
distractor pool; for `k = 1` the code still takes one distractor
(`max(1, k-1)`), so the length is `min 2 (1+d)`, not `min 1 (1+d)`. -/
theorem mcq_option_count_amended (facts : List Fact) (k s : Nat) (hk : 1 ≤ k) :
    ∀ q ∈ (generate_mcq facts k s).1,
      q.options.length =
        min (max 2 k) (1 + ((facts.map Fact.obj).filter fun o => o ≠ q.answer).length) := by
  intro q hq
  rcases mcqLoop_core (facts.map Fact.obj) k facts s q hq with ⟨-, hd, hlen⟩
  omega

/-- C1 witness: the amended count at a concrete input (`k = 4`, two facts,
first emitted record). -/
theorem mcq_option_count_amended_witness :
    ((generate_mcq (extract_facts [str "A is B.", str "C is D."]) 4 0).1.headI).options.length =
      min (max 2 4)
        (1 + (((extract_facts [str "A is B.", str "C is D."]).map Fact.obj).filter
          fun o =>
            o ≠ ((generate_mcq (extract_facts [str "A is B.", str "C is D."]) 4 0).1.headI).answer).length) :=
  mcq_option_count_amended (extract_facts [str "A is B.", str "C is D."]) 4 0
    (by decide) _ (by decide)

/-- C1 counterexample: with `k = 1` and two facts (each distractor pool has
size `d = 1`) the emitted records have 2 options, but the claim demands
`min(k, 1 + d) = min 1 2 = 1`. -/
theorem mcq_option_count_counterexample :
    ∃ q ∈ (generate_mcq (extract_facts [str "A is B.", str "C is D."]) 1 0).1,
      q.options.length ≠
        min 1 (1 + (((extract_facts [str "A is B.", str "C is D."]).map Fact.obj).filter
          fun o => o ≠ q.answer).length) := by
  decide

/-- C2: every emitted multiple-choice record contains the answer exactly once
among its options and has at least two options. -/
theorem mcq_answer_once_and_len (facts : List Fact) (k s : Nat) (hk : 1 ≤ k) :
    ∀ q ∈ (generate_mcq facts k s).1,
      countOcc q.answer q.options = 1 ∧ 2 ≤ q.options.length := by
  intro q hq
  rcases mcqLoop_core (facts.map Fact.obj) k facts s q hq with ⟨hcount, hd, hlen⟩
  exact ⟨hcount, by omega⟩

/-- C2 witness at a concrete input (first emitted record). -/
theorem mcq_answer_once_and_len_witness :
    countOcc ((generate_mcq (extract_facts [str "A is B.", str "C is D."]) 4 0).1.headI).answer
        ((generate_mcq (extract_facts [str "A is B.", str "C is D."]) 4 0).1.headI).options = 1 ∧
      2 ≤ ((generate_mcq (extract_facts [str "A is B.", str "C is D."]) 4 0).1.headI).options.length :=
  mcq_answer_once_and_len (extract_facts [str "A is B.", str "C is D."]) 4 0
    (by decide) _ (by decide)

/-- C3: the true/false output consists, fact by fact in order, of one true
item per fact with a usable statement template (answer `"True"`/`"正确"` by
language), immediately followed by a false item exactly when some other
fact's object differs from the current fact's object. -/
theorem tf_shape (facts : List Fact) (s : Nat) :
    TFOk (facts.map Fact.obj) facts (generate_true_false facts s).1 :=
  tfLoop_ok (facts.map Fact.obj) facts s

/-- C4: the full `all`-mode pipeline is deterministic — two runs on equal
input text, equal option count and equal seed produce equal outputs,
including the multiple-choice option orderings and the false-statement
choices (all randomness is the explicitly threaded state). -/
theorem pipeline_deterministic (t₁ t₂ : List Nat) (k₁ k₂ seed₁ seed₂ : Nat)
    (ht : t₁ = t₂) (hk : k₁ = k₂) (hs : seed₁ = seed₂) :
    runPipeline t₁ k₁ seed₁ = runPipeline t₂ k₂ seed₂ := by
  subst ht; subst hk; subst hs; rfl

/-- C4 witness: the two runs at a concrete input coincide. -/
theorem pipeline_deterministic_witness :
    runPipeline (str "Isaac Newton was born in England. Isaac Newton invented calculus.") 4 42 =
      runPipeline (str "Isaac Newton was born in England. Isaac Newton invented calculus.") 4 42 :=
  pipeline_deterministic _ _ 4 4 42 42 rfl rfl rfl

theorem firstMatchGo_tag : ∀ (ps : List Pat) (s : List Nat) (f : Fact),
    firstMatchGo ps s = some f →
    ∃ p ∈ ps, f.relation = p.relation ∧ f.language = p.language := by
  intro ps
  induction ps with
  | nil => intro s f h; simp [firstMatchGo] at h
  | cons p ps ih =>
    intro s f h
    rw [firstMatchGo] at h
    rcases hm : matchGeneric p.sep p.objT [] s with _ | ab
    · rw [hm] at h
      rcases ih s f h with ⟨p', hp', h1, h2⟩
      exact ⟨p', List.mem_cons_of_mem _ hp', h1, h2⟩
    · rw [hm] at h
      rcases ab with ⟨a, b⟩
      simp only [Option.some.injEq] at h
      subst h
      exact ⟨p, List.mem_cons_self _ _, rfl, rfl⟩

theorem extract_fact_tag (sentences : List (List Nat)) :
    ∀ f ∈ extract_facts sentences, (f.relation, f.language) ∈ relLangPairs := by
  intro f hf
  rcases List.mem_filterMap.mp hf with ⟨s, -, hm⟩
  rcases firstMatchGo_tag patterns s f hm with ⟨p, hp, h1, h2⟩
  rw [h1, h2]
  have : ∀ p' ∈ patterns, (p'.relation, p'.language) ∈ relLangPairs := by
    intro p' hp'
    simp only [patterns, List.mem_cons, List.not_mem_nil, or_false] at hp'
    rcases hp' with h | h | h | h | h | h | h | h | h | h <;> subst h <;> decide
  exact this p hp

theorem generate_qa_eq_map : ∀ (facts : List Fact),
    (∀ f ∈ facts, (QA_TEMPLATES f.relation f.language).isSome) →
    generate_qa facts = facts.map fun f =>
      ⟨renderQ ((QA_TEMPLATES f.relation f.language).getD ([], [])) f.subject,
       f.obj, f.source_sentence⟩ := by
  intro facts
  induction facts with
  | nil => intro; rfl
  | cons fact rest ih =>
    intro h
    have hhead := h fact (List.mem_cons_self _ _)
    rcases htm : QA_TEMPLATES fact.relation fact.language with _ | tmpl
    · rw [htm] at hhead; simp at hhead
    · rw [generate_qa, htm, List.map_cons, htm]
      simp only [Option.getD_some]
      rw [ih fun f hf => h f (List.mem_cons_of_mem _ hf)]

/-- C10: every extracted fact's (relation, language) pair lies in the closed
ten-element vocabulary, all three template tables are defined on that whole
vocabulary (so no synthesizer ever takes its missing-template skip branch on
extractor output), and consequently the open-answer synthesizer emits
exactly one question per input fact, in fact order. -/
theorem templates_total_on_extractor_output (sentences : List (List Nat)) :
    (∀ f ∈ extract_facts sentences,
      (f.relation, f.language) ∈ relLangPairs ∧
      (QA_TEMPLATES f.relation f.language).isSome ∧
      (MCQ_TEMPLATES f.relation f.language).isSome ∧
      (STATEMENT_TEMPLATES f.relation f.language).isSome) ∧
    generate_qa (extract_facts sentences) =
      (extract_facts sentences).map fun f =>
        ⟨renderQ ((QA_TEMPLATES f.relation f.language).getD ([], [])) f.subject,
         f.obj, f.source_sentence⟩ := by
  have htot : ∀ rl ∈ relLangPairs,
      (QA_TEMPLATES rl.1 rl.2).isSome ∧ (MCQ_TEMPLATES rl.1 rl.2).isSome ∧
      (STATEMENT_TEMPLATES rl.1 rl.2).isSome := by decide
  have hmem := extract_fact_tag sentences
  constructor
  · intro f hf
    rcases htot _ (hmem f hf) with ⟨h1, h2, h3⟩
    exact ⟨hmem f hf, h1, h2, h3⟩
  · exact generate_qa_eq_map _ fun f hf => (htot _ (hmem f hf)).1

/-- C5 (amended): for every extracted fact, the raw subject capture, the
separator and the raw object capture jointly consume the entire source
sentence modulo one optionally stripped trailing `.` (English patterns) or
`。` (Chinese patterns); the other terminal marks `! ? ！ ？` (and any
further trailing mark) are never stripped and stay inside the object
capture. -/
theorem extract_span_amended (sentences : List (List Nat)) :
    ∀ f ∈ extract_facts sentences,
      ∃ a mid b t, f.source_sentence = a ++ mid ++ b ++ t ∧ a ≠ [] ∧ mid ≠ [] ∧
        f.subject = strip a ∧ f.obj = strip b ∧
        (t = [] ∨ t = [46] ∨ t = [12290]) :=
  extract_fact_span sentences

/-- C5 witness: the decomposition at the concrete fact of `"A is B."`. -/
theorem extract_span_amended_witness :
    ∃ a mid b t,
      (Fact.mk (str "A") (str "is") (str "B") (str "A is B.") (str "en")).source_sentence =
        a ++ mid ++ b ++ t ∧ a ≠ [] ∧ mid ≠ [] ∧
      (Fact.mk (str "A") (str "is") (str "B") (str "A is B.") (str "en")).subject = strip a ∧
      (Fact.mk (str "A") (str "is") (str "B") (str "A is B.") (str "en")).obj = strip b ∧
      (t = [] ∨ t = [46] ∨ t = [12290]) :=
  extract_span_amended [str "A is B."] _ (by decide)

/-- C5 counterexample: the sentence `"A is B!"` ends with the terminal mark
`!` (33), matches the English is-pattern, yet the extracted object is `"B!"`
— the trailing terminal mark is not stripped (only `.` and `。` are). -/
theorem extract_span_counterexample :
    (str "A is B!").getLast? = some 33 ∧ isTermB 33 = true ∧
    (extract_facts [str "A is B!"]).map Fact.obj = [str "B!"] ∧
    (str "B!").getLast? = some 33 := by
  decide

/-- Membership in the segmenter's output means being the non-empty strip of
some raw segment. -/
theorem split_sentences_shape (text : List Nat) :
    ∀ s ∈ split_sentences text, ∃ seg, s = strip seg ∧ s ≠ [] := by
  intro s hs
  unfold split_sentences at hs
  by_cases hcl : join1 (splitWs text) = []
  · rw [if_pos hcl] at hs; simp at hs
  · rw [if_neg hcl] at hs
    rcases List.mem_filterMap.mp hs with ⟨seg, -, hfn⟩
    simp only at hfn
    by_cases hst : strip seg = []
    · rw [if_pos hst] at hfn; cases hfn
    · rw [if_neg hst] at hfn
      simp only [Option.some.injEq] at hfn
      exact ⟨seg, hfn.symm, hfn ▸ hst⟩

/-- C8 (amended): on segmenter output, every extracted fact has a non-empty
subject, and both subject and object equal their trimmed regex captures
(stripping them again changes nothing, i.e. no leading or trailing
whitespace remains).  The object can be empty, and terminal punctuation
other than one stripped `.`/`。` can remain — see the counterexample. -/
theorem extract_fields_trimmed (text : List Nat) :
    ∀ f ∈ extract_facts (split_sentences text),
      f.subject ≠ [] ∧ strip f.subject = f.subject ∧ strip f.obj = f.obj := by
  intro f hf
  rcases List.mem_filterMap.mp hf with ⟨s, hs, hm⟩
  rcases firstMatchGo_spec patterns s f hm with ⟨hsrc, p, hp, a, b, hmg, hsub, hob⟩
  rcases patterns_ok p hp with ⟨hsep, hobjt⟩
  rcases matchGeneric_decomp hsep hobjt s [] a b hmg with
    ⟨pre, mid, t, hpre, hmid, ha, hsdec, ht⟩
  simp only [List.nil_append] at ha
  subst ha
  rcases split_sentences_shape text s hs with ⟨seg, hseg, hsne⟩
  rcases hpre2 : a with _ | ⟨c, a'⟩
  · exact absurd hpre2 hpre
  · have hhead : strip seg = c :: (a' ++ mid ++ b ++ t) := by
      rw [← hseg, hsdec, hpre2]
      simp
    have hc : isSpaceB c = false := strip_head_not hhead
    have hcmem : c ∈ a := by rw [hpre2]; exact List.mem_cons_self _ _
    have hsubne : strip a ≠ [] := strip_ne_nil hcmem hc
    refine ⟨?_, ?_, ?_⟩
    · rw [hsub]; exact hsubne
    · rw [hsub, strip_idem]
    · rw [hob, strip_idem]

/-- C8 witness: the fields of the concrete fact of `"A is B."` after
segmentation. -/
theorem extract_fields_trimmed_witness :
    (Fact.mk (str "A") (str "is") (str "B") (str "A is B.") (str "en")).subject ≠ [] ∧
    strip (Fact.mk (str "A") (str "is") (str "B") (str "A is B.") (str "en")).subject =
      (Fact.mk (str "A") (str "is") (str "B") (str "A is B.") (str "en")).subject ∧
    strip (Fact.mk (str "A") (str "is") (str "B") (str "A is B.") (str "en")).obj =
      (Fact.mk (str "A") (str "is") (str "B") (str "A is B.") (str "en")).obj :=
  extract_fields_trimmed (str "A is B.") _ (by decide)

/-- C8 counterexample: on segmenter output `"X是 。"` the extracted object is
empty (the capture `" "` strips to `""`), and on `"A is B!"` the object
`"B!"` retains the terminal mark `!` — so the claim's non-emptiness /
no-stray-punctuation guarantees fail. -/
theorem extract_fields_counterexample :
    (extract_facts (split_sentences (str "X是 。"))).map Fact.obj = [[]] ∧
    (extract_facts (split_sentences (str "A is B!"))).map Fact.obj = [str "B!"] ∧
    isTermB 33 = true ∧ (str "B!").getLast? = some 33 := by
  decide

/-! ## Pattern failure and success lemmas for C6 -/

theorem countSp_eq_zero {l : List Nat} (h : ∀ c ∈ l, isSpaceB c = false) :
    countSp l = 0 := by
  rcases l with _ | ⟨c, rest⟩
  · rfl
  · unfold countSp
    rw [List.takeWhile_cons, h c (List.mem_cons_self _ _)]
    rfl

theorem matchGeneric_en_none (kw : List Nat) (objT : List Nat → Option (List Nat)) :
    ∀ (s acc : List Nat), (∀ c ∈ s, isSpaceB c = false) →
      matchGeneric (enSep kw) objT acc s = none := by
  intro s
  induction s with
  | nil => intro acc h; rfl
  | cons c rest ih =>
    intro acc h
    rw [matchGeneric]
    have hsep : enSep kw rest = [] := by
      unfold enSep
      rw [countSp_eq_zero fun c hc => h c (List.mem_cons_of_mem _ hc)]
      simp
    rw [hsep]
    simp only [firstSome]
    rw [ih _ fun c hc => h c (List.mem_cons_of_mem _ hc)]
    simp

theorem matchGeneric_litSingle_none (k : Nat) (objT : List Nat → Option (List Nat)) :
    ∀ (s acc : List Nat), k ∉ s → matchGeneric (litSep [k]) objT acc s = none := by
  intro s
  induction s with
  | nil => intro acc h; rfl
  | cons c rest ih =>
    intro acc h
    rw [matchGeneric]
    by_cases h10 : c = 10
    · rw [if_pos h10]
    · rw [if_neg h10]
      have hsep : litSep [k] rest = [] := by
        unfold litSep
        rcases rest with _ | ⟨d, cs⟩
        · rfl
        · have hd : d ≠ k := by
            intro hdk
            exact h (List.mem_cons_of_mem _ (hdk ▸ List.mem_cons_self _ _))
          simp only [dropLitEx, if_neg hd]
      rw [hsep]
      simp only [firstSome]
      rw [ih _ fun hm => h (List.mem_cons_of_mem _ hm)]

theorem firstSome_isSome {rs : List (List Nat)} {f : List Nat → Option (List Nat)}
    (h : ∃ r ∈ rs, (f r).isSome) : (firstSome rs f).isSome := by
  induction rs with
  | nil => rcases h with ⟨r, hr, -⟩; simp at hr
  | cons r rs ih =>
    rw [firstSome]
    rcases hfr : f r with _ | ob
    · rcases h with ⟨r2, hr2, hr2s⟩
      rcases List.mem_cons.mp hr2 with rfl | hr2
      · rw [hfr] at hr2s; cases hr2s
      · exact ih ⟨r2, hr2, hr2s⟩
    · rfl

theorem matchGeneric_isSome (sepAlts : List Nat → List (List Nat))
    (objT : List Nat → Option (List Nat)) :
    ∀ (pre acc : List Nat) (c : Nat) (post : List Nat),
      (∀ x ∈ pre, x ≠ 10) → c ≠ 10 →
      (∃ r ∈ sepAlts post, (objT r).isSome) →
      (matchGeneric sepAlts objT acc (pre ++ c :: post)).isSome := by
  intro pre
  induction pre with
  | nil =>
    intro acc c post _ hc hr
    rw [List.nil_append, matchGeneric, if_neg hc]
    rcases hfs : firstSome (sepAlts post) objT with _ | ob
    · have := firstSome_isSome hr
      rw [hfs] at this
      cases this
    · rfl
  | cons d pre' ih =>
    intro acc c post hpre hc hr
    rw [List.cons_append, matchGeneric,
      if_neg (hpre d (List.mem_cons_self _ _))]
    rcases hfs : firstSome (sepAlts (pre' ++ c :: post)) objT with _ | ob
    · exact ih _ c post (fun x hx => hpre x (List.mem_cons_of_mem _ hx)) hc hr
    · rfl

theorem dropLitEx_append (kw rest : List Nat) : dropLitEx kw (kw ++ rest) = some rest := by
  induction kw with
  | nil => rfl
  | cons k ks ih => simp [dropLitEx, ih]

theorem objTail_isSome (p : Nat) {r : List Nat} (hne : r ≠ []) (h10 : ¬ (10 ∈ r)) :
    (objTail p r).isSome := by
  unfold objTail
  split_ifs with h1 h2
  · rfl
  · rfl
  · exact absurd ⟨List.length_pos.mpr hne, h10⟩ h2

/-- C6 (amended): for a sentence of the form `X出生于D` in which no earlier
pattern can match — `X` non-empty, no whitespace anywhere (ruling out the
five English patterns) and no `是` in `X` or `D` (ruling out the Chinese
is-pattern) — with `D` containing a date-unit character, the extractor emits
exactly one fact whose relation is `born_in` (not `born_on`): the `born_in`
pattern is listed before `born_on` and matches first. -/
theorem born_in_priority_amended (X D : List Nat) (hX : X ≠ [])
    (hws : ∀ c ∈ X ++ str "出生于" ++ D, isSpaceB c = false)
    (hshiX : 26159 ∉ X) (hshiD : 26159 ∉ D)
    (hdate : ∃ u ∈ D, isDateUnit u = true) :
    ∃ f, extract_facts [X ++ str "出生于" ++ D] = [f] ∧
      f.relation = str "born_in" ∧ f.language = str "zh" := by
  have hDne : D ≠ [] := by
    rcases hdate with ⟨u, hu, -⟩
    exact List.ne_nil_of_mem hu
  have h10s : ∀ c ∈ X ++ str "出生于" ++ D, c ≠ 10 := by
    intro c hc hc10
    have := hws c hc
    rw [hc10] at this
    exact absurd this (by decide)
  have hen : ∀ (kw : List Nat) (objT : List Nat → Option (List Nat)),
      matchGeneric (enSep kw) objT [] (X ++ str "出生于" ++ D) = none :=
    fun kw objT => matchGeneric_en_none kw objT _ [] hws
  have hzh : matchGeneric (litSep (str "是")) (objTail 12290) []
      (X ++ str "出生于" ++ D) = none := by
    have hmem : (26159 : Nat) ∉ X ++ str "出生于" ++ D := by
      intro hm
      rcases List.mem_append.mp hm with hm | hm
      · rcases List.mem_append.mp hm with hm | hm
        · exact hshiX hm
        · exact absurd hm (by decide)
      · exact hshiD hm
    have he : str "是" = [26159] := by decide
    rw [he]
    exact matchGeneric_litSingle_none 26159 _ _ [] hmem
  have hbi : (matchGeneric bornInSep (objTail 12290) []
      (X ++ str "出生于" ++ D)).isSome := by
    rcases List.eq_nil_or_concat X with rfl | ⟨pre, c, hXc⟩
    · exact absurd rfl hX
    · rw [List.concat_eq_append] at hXc
      have hshape : X ++ str "出生于" ++ D = pre ++ c :: (str "出生于" ++ D) := by
        rw [hXc]
        simp
      rw [hshape]
      apply matchGeneric_isSome
      · intro x hx
        apply h10s x
        rw [hXc]
        exact List.mem_append_left _ (List.mem_append_left _ (List.mem_append_left _ hx))
      · apply h10s c
        rw [hXc]
        exact List.mem_append_left _ (List.mem_append_left _
          (List.mem_append_right _ (List.mem_singleton.mpr rfl)))
      · have hsplit : str "出生于" ++ D = str "出生" ++ (20110 :: D) := by
          have : str "出生于" = str "出生" ++ [20110] := by decide
          rw [this]
          simp
        rw [hsplit]
        have hbsep : bornInSep (str "出生" ++ (20110 :: D)) = [D] := by
          unfold bornInSep
          rw [dropLitEx_append]
          simp [afterYuZai]
        rw [hbsep]
        refine ⟨D, List.mem_singleton.mpr rfl, objTail_isSome 12290 hDne ?_⟩
        intro hm
        exact absurd (h10s 10 (List.mem_append_right _ hm)) (by simp)
  rcases Option.isSome_iff_exists.mp hbi with ⟨ab, hab⟩
  rcases ab with ⟨a, b⟩
  have hfm : firstMatch (X ++ str "出生于" ++ D) =
      some ⟨strip a, str "born_in", strip b, X ++ str "出生于" ++ D, str "zh"⟩ := by
    rw [firstMatch, patterns]
    rw [firstMatchGo]; rw [hen]
    rw [firstMatchGo]; rw [hen]
    rw [firstMatchGo]; rw [hen]
    rw [firstMatchGo]; rw [hen]
    rw [firstMatchGo]; rw [hen]
    rw [firstMatchGo]; rw [hzh]
    rw [firstMatchGo]; rw [hab]
  refine ⟨⟨strip a, str "born_in", strip b, X ++ str "出生于" ++ D, str "zh"⟩, ?_, rfl, rfl⟩
  unfold extract_facts
  rw [List.filterMap_cons_some hfm]
  rfl

/-- C6 witness: the amended statement at `X = "爱因斯坦"`, `D = "1990年"`. -/
theorem born_in_priority_amended_witness :
    ∃ f, extract_facts [str "爱因斯坦" ++ str "出生于" ++ str "1990年"] = [f] ∧
      f.relation = str "born_in" ∧ f.language = str "zh" :=
  born_in_priority_amended (str "爱因斯坦") (str "1990年") (by decide) (by decide)
    (by decide) (by decide) (by decide)

/-- C6 counterexample: `"他是谁出生于1990年"` is of the form `X出生于D` with
`X = "他是谁"` and `D = "1990年"` containing the date unit `年`, yet the
extractor emits an `is` fact (the Chinese is-pattern is tried earlier and
matches the `是` inside `X`), not a `born_in` fact. -/
theorem born_in_priority_counterexample :
    str "他是谁出生于1990年" = str "他是谁" ++ str "出生于" ++ str "1990年" ∧
    (∃ u ∈ str "1990年", isDateUnit u = true) ∧
    (extract_facts [str "他是谁出生于1990年"]).map Fact.relation = [str "is"] := by
  refine ⟨by decide, ⟨24180, by decide, by decide⟩, by decide⟩

/-- C7: `"Marie Curie was born in Warsaw."` yields exactly one fact, with
relation `born_in` (not `is`), language `en`, subject `"Marie Curie"` and
object `"Warsaw"`. -/
theorem marie_curie_born_in :
    extract_facts [str "Marie Curie was born in Warsaw."] =
      [⟨str "Marie Curie", str "born_in", str "Warsaw",
        str "Marie Curie was born in Warsaw.", str "en"⟩] := by
  decide

/-! ## Word-level lemmas for the segmenter (C9) -/

theorem splitWsAux_words : ∀ (l cur : List Nat),
    (∀ c ∈ cur, isSpaceB c = false) →
    ∀ w ∈ splitWsAux cur l, w ≠ [] ∧ ∀ c ∈ w, isSpaceB c = false := by
  intro l
  induction l with
  | nil =>
    intro cur hcur w hw
    rw [splitWsAux] at hw
    by_cases hc : cur = []
    · rw [if_pos hc] at hw; simp at hw
    · rw [if_neg hc] at hw
      simp only [List.mem_singleton] at hw
      subst hw
      exact ⟨hc, hcur⟩
  | cons c rest ih =>
    intro cur hcur w hw
    rw [splitWsAux] at hw
    by_cases hsp : isSpaceB c = true
    · rw [if_pos hsp] at hw
      by_cases hc : cur = []
      · rw [if_pos hc] at hw
        exact ih [] (by simp) w hw
      · rw [if_neg hc] at hw
        rcases List.mem_cons.mp hw with rfl | hw
        · exact ⟨hc, hcur⟩
        · exact ih [] (by simp) w hw
    · rw [if_neg hsp] at hw
      refine ih (cur ++ [c]) ?_ w hw
      intro x hx
      rcases List.mem_append.mp hx with hx | hx
      · exact hcur x hx
      · rw [List.mem_singleton.mp hx]
        simpa using hsp

theorem splitWs_words (text : List Nat) :
    ∀ w ∈ splitWs text, w ≠ [] ∧ ∀ c ∈ w, isSpaceB c = false :=
  splitWsAux_words text [] (by simp)

theorem splitWsAux_word : ∀ (w l cur : List Nat),
    (∀ c ∈ w, isSpaceB c = false) →
    splitWsAux cur (w ++ l) = splitWsAux (cur ++ w) l := by
  intro w
  induction w with
  | nil => intro l cur _; simp
  | cons c w' ih =>
    intro l cur h
    rw [List.cons_append, splitWsAux,
      if_neg (by simp [h c (List.mem_cons_self _ _)]),
      ih l (cur ++ [c]) fun x hx => h x (List.mem_cons_of_mem _ hx)]
    simp

theorem join1_cons_ne (x : List Nat) {T : List (List Nat)} (hT : T ≠ []) :
    join1 (x :: T) = x ++ 32 :: join1 T := by
  rcases T with _ | ⟨r, rest⟩
  · exact absurd rfl hT
  · rw [join1]

theorem join1_ne_nil {w : List Nat} {ws : List (List Nat)} (hw : w ≠ []) :
    join1 (w :: ws) ≠ [] := by
  rcases ws with _ | ⟨r, rest⟩
  · rw [join1]; exact hw
  · rw [join1]
    intro h
    rcases List.append_eq_nil.mp h with ⟨h1, -⟩
    exact hw h1

theorem splitWs_join1 : ∀ (ws : List (List Nat)),
    (∀ w ∈ ws, w ≠ [] ∧ ∀ c ∈ w, isSpaceB c = false) →
    splitWs (join1 ws) = ws := by
  intro ws
  induction ws with
  | nil => intro; rfl
  | cons w ws' ih =>
    intro h
    rcases h w (List.mem_cons_self _ _) with ⟨hwne, hwns⟩
    rcases ws' with _ | ⟨w', ws''⟩
    · show splitWs (join1 [w]) = [w]
      rw [join1]
      unfold splitWs
      have := splitWsAux_word w [] [] hwns
      rw [List.append_nil] at this
      rw [this, List.nil_append, splitWsAux, if_neg hwne]
    · rw [join1_cons_ne w (by simp)]
      unfold splitWs
      rw [splitWsAux_word w (32 :: join1 (w' :: ws'')) [] hwns, List.nil_append,
        splitWsAux, if_pos (by decide), if_neg hwne]
      have ih2 := ih fun x hx => h x (List.mem_cons_of_mem _ hx)
      unfold splitWs at ih2
      rw [ih2]

theorem join1_append : ∀ (A B : List (List Nat)), A ≠ [] → B ≠ [] →
    join1 (A ++ B) = join1 A ++ 32 :: join1 B := by
  intro A
  induction A with
  | nil => intro B h _; exact absurd rfl h
  | cons a A' ih =>
    intro B _ hB
    rcases A' with _ | ⟨a', A''⟩
    · rw [List.cons_append, List.nil_append, join1_cons_ne a hB, join1]
    · rw [List.cons_append, join1_cons_ne a (by simp),
        join1_cons_ne a (by simp : (a' :: A'' : List (List Nat)) ≠ []),
        ih B (by simp) hB]
      simp

theorem flatten_ne_nil {g : List (List Nat)} {gss : List (List (List Nat))}
    (hg : g ≠ []) : (g :: gss).flatten ≠ [] := by
  rw [List.flatten_cons]
  intro h
  rcases List.append_eq_nil.mp h with ⟨h1, -⟩
  exact hg h1

theorem join1_join : ∀ (gss : List (List (List Nat))),
    (∀ g ∈ gss, g ≠ []) →
    join1 (gss.map join1) = join1 gss.flatten := by
  intro gss
  induction gss with
  | nil => intro; rfl
  | cons g gss' ih =>
    intro h
    have hg : g ≠ [] := h g (List.mem_cons_self _ _)
    rcases gss' with _ | ⟨g', gss''⟩
    · show join1 [join1 g] = join1 ([g].flatten)
      rw [join1]
      simp
    · have hg' : g' ≠ [] := h g' (List.mem_cons_of_mem _ (List.mem_cons_self _ _))
      rw [List.map_cons, join1_cons_ne _ (by simp), List.flatten_cons,
        join1_append g _ hg (flatten_ne_nil hg'),
        ih fun x hx => h x (List.mem_cons_of_mem _ hx)]

theorem groupSents_single (w : List Nat) : groupSents [w] = [[w]] := by
  rw [groupSents]
  by_cases h : endsTerm w = true
  · rw [if_pos h]; rfl
  · rw [if_neg h]; rfl

theorem groupSents_ne_nil : ∀ {ws : List (List Nat)}, ws ≠ [] → groupSents ws ≠ [] := by
  intro ws h
  rcases ws with _ | ⟨w, ws'⟩
  · exact absurd rfl h
  · rw [groupSents]
    by_cases ht : endsTerm w = true
    · rw [if_pos ht]; simp
    · rw [if_neg ht]
      rcases hgs : groupSents ws' with _ | ⟨g, gs⟩ <;> simp

theorem groupSents_groups : ∀ (ws : List (List Nat)) (g : List (List Nat)),
    g ∈ groupSents ws → g ≠ [] ∧ ∀ w ∈ g, w ∈ ws := by
  intro ws
  induction ws with
  | nil => intro g hg; simp [groupSents] at hg
  | cons w ws' ih =>
    intro g hg
    rw [groupSents] at hg
    by_cases ht : endsTerm w = true
    · rw [if_pos ht] at hg
      rcases List.mem_cons.mp hg with rfl | hg
      · exact ⟨by simp, by simp⟩
      · rcases ih g hg with ⟨h1, h2⟩
        exact ⟨h1, fun x hx => List.mem_cons_of_mem _ (h2 x hx)⟩
    · rw [if_neg ht] at hg
      rcases hgs : groupSents ws' with _ | ⟨g', gs⟩
      · rw [hgs] at hg
        simp only [List.mem_singleton] at hg
        subst hg
        exact ⟨by simp, by simp⟩
      · rw [hgs] at hg
        rcases List.mem_cons.mp hg with rfl | hg
        · refine ⟨by simp, ?_⟩
          intro x hx
          rcases List.mem_cons.mp hx with rfl | hx
          · exact List.mem_cons_self _ _
          · have := (ih g' (hgs ▸ List.mem_cons_self _ _)).2 x hx
            exact List.mem_cons_of_mem _ this
        · rcases ih g (hgs ▸ List.mem_cons_of_mem _ hg) with ⟨h1, h2⟩
          exact ⟨h1, fun x hx => List.mem_cons_of_mem _ (h2 x hx)⟩

theorem groupSents_flatten : ∀ (ws : List (List Nat)),
    (groupSents ws).flatten = ws := by
  intro ws
  induction ws with
  | nil => rfl
  | cons w ws' ih =>
    rw [groupSents]
    by_cases ht : endsTerm w = true
    · rw [if_pos ht, List.flatten_cons, ih]
      rfl
    · rw [if_neg ht]
      rcases hgs : groupSents ws' with _ | ⟨g, gs⟩
      · have hnil : ws' = [] := by
          by_contra hne
          exact groupSents_ne_nil hne hgs
        subst hnil
        rfl
      · simp only [hgs]
        have hfl : (g :: gs).flatten = ws' := by rw [← hgs]; exact ih
        rw [List.flatten_cons] at hfl
        rw [List.flatten_cons, List.cons_append, hfl]

/-! ## Walking the sentence splitter over words (C9) -/

theorem consHead_cons (c : Nat) (s : List Nat) (ss : List (List Nat)) :
    consHead c (s :: ss) = (c :: s) :: ss := rfl

theorem foldr_consHead (w : List Nat) (s : List Nat) (ss : List (List Nat)) :
    w.foldr consHead (s :: ss) = (w ++ s) :: ss := by
  induction w with
  | nil => rfl
  | cons c w' ih => rw [List.foldr_cons, ih]; rfl

theorem sentSplitGo_word : ∀ (w : List Nat), w ≠ [] →
    (∀ c ∈ w, isSpaceB c = false) →
    ∀ (p : Nat) (l : List Nat),
      sentSplitGo false p (w ++ l) =
        w.foldr consHead (sentSplitGo false (w.getLastD 0) l) := by
  intro w
  induction w with
  | nil => intro h; exact absurd rfl h
  | cons c w' ih =>
    intro _ hns p l
    have hc : isSpaceB c = false := hns c (List.mem_cons_self _ _)
    rcases hw' : w' with _ | ⟨d, w''⟩
    · rw [List.cons_append, List.nil_append, sentSplitGo, if_neg (by simp [hc])]
      rfl
    · rw [← hw']
      have hw'ne : w' ≠ [] := by rw [hw']; simp
      rw [List.cons_append, sentSplitGo, if_neg (by simp [hc]),
        ih hw'ne (fun x hx => hns x (List.mem_cons_of_mem _ hx)) c l]
      have hlast : (c :: w').getLastD 0 = w'.getLastD 0 := by
        rw [List.getLastD_eq_getLast?, List.getLastD_eq_getLast?, hw']
        simp
      rw [hlast]
      rfl

theorem sentSplitGo_resume (c : Nat) (hc : isSpaceB c = false) (p p' : Nat)
    (rest : List Nat) :
    sentSplitGo true p (c :: rest) = sentSplitGo false p' (c :: rest) := by
  rw [sentSplitGo, sentSplitGo, if_neg (by simp [hc]), if_neg (by simp [hc])]

theorem sentSplitGo_groups : ∀ (ws : List (List Nat)), ws ≠ [] →
    (∀ w ∈ ws, w ≠ [] ∧ ∀ c ∈ w, isSpaceB c = false) →
    ∀ p : Nat, sentSplitGo false p (join1 ws) = (groupSents ws).map join1 := by
  intro ws
  induction ws with
  | nil => intro h; exact absurd rfl h
  | cons w ws' ih =>
    intro _ hprops p
    rcases hprops w (List.mem_cons_self _ _) with ⟨hwne, hwns⟩
    rcases hws' : ws' with _ | ⟨w', ws''⟩
    · show sentSplitGo false p (join1 [w]) = (groupSents [w]).map join1
      rw [join1, groupSents_single, List.map_cons, List.map_nil, join1]
      have := sentSplitGo_word w hwne hwns p []
      rw [List.append_nil] at this
      rw [this, sentSplitGo, foldr_consHead, List.append_nil]
    · rw [← hws']
      have hws'ne : ws' ≠ [] := by rw [hws']; simp
      have hw'props : w' ≠ [] ∧ ∀ c ∈ w', isSpaceB c = false := by
        refine hprops w' ?_
        rw [hws']
        exact List.mem_cons_of_mem _ (List.mem_cons_self _ _)
      have hheadshape : ∃ c' tl, join1 ws' = c' :: tl ∧ isSpaceB c' = false := by
        rcases hw'props with ⟨hw'ne, hw'ns⟩
        rcases hc' : w' with _ | ⟨c', wr⟩
        · exact absurd hc' hw'ne
        · have hc'ns : isSpaceB c' = false := by
            apply hw'ns
            rw [hc']
            exact List.mem_cons_self _ _
          rcases ws'' with _ | ⟨w'', ws'''⟩
          · exact ⟨c', wr, by rw [hws', join1, hc'], hc'ns⟩
          · refine ⟨c', wr ++ 32 :: join1 (w'' :: ws'''), ?_, hc'ns⟩
            rw [hws', join1_cons_ne _ (by simp), hc']
            simp
      have hih := ih (by rw [hws']; simp)
        (fun x hx => hprops x (List.mem_cons_of_mem _ hx)) 32
      rw [join1_cons_ne w hws'ne,
        sentSplitGo_word w hwne hwns p (32 :: join1 ws'), sentSplitGo]
      by_cases ht : endsTerm w = true
      · have hguard : (isSpaceB 32 && isTermB (w.getLastD 0)) = true := by
          unfold endsTerm at ht
          rw [ht]
          decide
        rw [if_pos hguard]
        have hresume : sentSplitGo true 32 (join1 ws') =
            sentSplitGo false 32 (join1 ws') := by
          rcases hheadshape with ⟨c', tl, hshape, hc'ns⟩
          rw [hshape]
          exact sentSplitGo_resume c' hc'ns 32 32 tl
        rw [hresume, hih, foldr_consHead, List.append_nil, groupSents,
          if_pos ht, List.map_cons, join1]
      · have hguard : (isSpaceB 32 && isTermB (w.getLastD 0)) = false := by
          unfold endsTerm at ht
          simp only [Bool.and_eq_false_iff]
          right
          simpa using ht
        rw [hguard]
        simp only [Bool.false_eq_true, if_false]
        rw [hih]
        rcases hgs : groupSents ws' with _ | ⟨g, gs⟩
        · exact absurd hgs (groupSents_ne_nil hws'ne)
        · have hgne : g ≠ [] := (groupSents_groups ws' g
            (hgs ▸ List.mem_cons_self _ _)).1
          rw [List.map_cons, consHead_cons, foldr_consHead, groupSents,
            if_neg ht, hgs, List.map_cons, join1_cons_ne w hgne]

/-! ## Stripping is the identity on normalized sentences (C9) -/

theorem strip_eq_self {l : List Nat} {c d : Nat}
    (hh : l.head? = some c) (hc : isSpaceB c = false)
    (hl : l.getLast? = some d) (hd : isSpaceB d = false) : strip l = l := by
  have hlne : l ≠ [] := by
    intro h; rw [h] at hh; cases hh
  have hls : lstrip l = l := by
    rcases l with _ | ⟨x, t⟩
    · rfl
    · simp only [List.head?_cons, Option.some.injEq] at hh
      subst hh
      unfold lstrip
      rw [List.dropWhile_cons, hc]
      simp
  have hrs : rstrip l = l := by
    rw [rstrip_eq_rdropWhile, List.rdropWhile_eq_self_iff]
    intro hl2
    rw [List.getLast?_eq_getLast l hl2] at hl
    simp only [Option.some.injEq] at hl
    rw [hl]
    simp [hd]
  unfold strip
  rw [hls, hrs]

theorem getLast?_ne_none {l : List Nat} (h : l ≠ []) : ∃ v, l.getLast? = some v :=
  ⟨l.getLast h, List.getLast?_eq_getLast l h⟩

theorem join1_getLast? : ∀ (g : List (List Nat)), g ≠ [] → (∀ w ∈ g, w ≠ []) →
    ∃ w ∈ g, (join1 g).getLast? = w.getLast? := by
  intro g
  induction g with
  | nil => intro h; exact absurd rfl h
  | cons w g' ih =>
    intro _ hws
    rcases hg' : g' with _ | ⟨w', g''⟩
    · refine ⟨w, List.mem_cons_self _ _, ?_⟩
      rw [join1]
    · rw [← hg']
      have hg'ne : g' ≠ [] := by rw [hg']; simp
      rcases ih hg'ne (fun x hx => hws x (List.mem_cons_of_mem _ hx)) with
        ⟨w0, hw0, hlast⟩
      refine ⟨w0, List.mem_cons_of_mem _ hw0, ?_⟩
      have hw'mem : w' ∈ w :: g' := by
        rw [hg']
        exact List.mem_cons_of_mem _ (List.mem_cons_self _ _)
      have hj'ne : join1 g' ≠ [] := by
        rw [hg']
        exact join1_ne_nil (hws w' hw'mem)
      rcases getLast?_ne_none hj'ne with ⟨v, hv⟩
      have h32 : (32 :: join1 g').getLast? = some v := by
        have h2 : (32 :: join1 g' : List Nat) = [32] ++ join1 g' := rfl
        rw [h2, List.getLast?_append, hv]
        rfl
      rw [join1_cons_ne w hg'ne, List.getLast?_append, h32, hlast.symm.trans hv]
      rfl

theorem sent_strip_id {g : List (List Nat)} (hg : g ≠ [])
    (hws : ∀ w ∈ g, w ≠ [] ∧ ∀ c ∈ w, isSpaceB c = false) :
    strip (join1 g) = join1 g ∧ join1 g ≠ [] := by
  rcases hgw : g with _ | ⟨w, grest⟩
  · exact absurd hgw hg
  · rw [← hgw]
    rcases hprops : w with _ | ⟨c, wr⟩
    · exact absurd hprops (hws w (by rw [hgw]; exact List.mem_cons_self _ _)).1
    · have hwmem : w ∈ g := by rw [hgw]; exact List.mem_cons_self _ _
      have hcns : isSpaceB c = false := by
        refine (hws w hwmem).2 c ?_
        rw [hprops]
        exact List.mem_cons_self _ _
      have hjne : join1 g ≠ [] := by
        rw [hgw]
        exact join1_ne_nil (hws w hwmem).1
      have hhead : (join1 g).head? = some c := by
        rw [hgw]
        rcases grest with _ | ⟨w2, grest2⟩
        · rw [join1, hprops]; rfl
        · rw [join1_cons_ne _ (by simp), hprops]; rfl
      rcases join1_getLast? g hg (fun x hx => (hws x hx).1) with ⟨w0, hw0, hlast⟩
      have hw0ne : w0 ≠ [] := (hws w0 hw0).1
      have hlast2 : (join1 g).getLast? = some (w0.getLast hw0ne) := by
        rw [hlast, List.getLast?_eq_getLast w0 hw0ne]
      have hdns : isSpaceB (w0.getLast hw0ne) = false :=
        (hws w0 hw0).2 _ (List.getLast_mem hw0ne)
      exact ⟨strip_eq_self hhead hcns hlast2 hdns, hjne⟩

theorem filterMap_strip_id : ∀ (ll : List (List Nat)),
    (∀ s ∈ ll, strip s = s ∧ s ≠ []) →
    (ll.filterMap fun s =>
      let t := strip s
      if t = [] then none else some t) = ll := by
  intro ll
  induction ll with
  | nil => intro; rfl
  | cons s ll' ih =>
    intro h
    rcases h s (List.mem_cons_self _ _) with ⟨hst, hne⟩
    rw [List.filterMap_cons]
    simp only [hst, if_neg hne]
    rw [ih fun x hx => h x (List.mem_cons_of_mem _ hx)]

/-- Normal form of `split_sentences` in word-group normal form: the output is the grouped
word list of the normalized text, each group joined with single spaces. -/
theorem split_sentences_eq_groups (text : List Nat) :
    split_sentences text = (groupSents (splitWs text)).map join1 := by
  have hwords := splitWs_words text
  rcases hws : splitWs text with _ | ⟨w, ws'⟩
  · unfold split_sentences
    rw [hws]
    rfl
  · rw [hws] at hwords
    unfold split_sentences
    rw [hws]
    have hcl : join1 (w :: ws') ≠ [] :=
      join1_ne_nil (hwords w (List.mem_cons_self _ _)).1
    rw [if_neg hcl, sentSplitGo_groups (w :: ws') (by simp) hwords 32]
    apply filterMap_strip_id
    intro s hs
    rcases List.mem_map.mp hs with ⟨g, hg, rfl⟩
    rcases groupSents_groups _ g hg with ⟨hgne, hgsub⟩
    exact sent_strip_id hgne fun x hx => hwords x (hgsub x hx)

/-- C9: segmenting the single-space join of the segmenter's own output
reproduces exactly that output. -/
theorem split_sentences_idempotent (text : List Nat) :
    split_sentences (join1 (split_sentences text)) = split_sentences text := by
  have hA := split_sentences_eq_groups text
  have hA2 := split_sentences_eq_groups (join1 (split_sentences text))
  have hwords := splitWs_words text
  have hgnn : ∀ g ∈ groupSents (splitWs text), g ≠ [] :=
    fun g hg => (groupSents_groups _ g hg).1
  have hjoin : join1 (split_sentences text) = join1 (splitWs text) := by
    rw [hA, join1_join _ hgnn, groupSents_flatten]
  rw [hA2, hjoin, splitWs_join1 _ hwords, ← hA]

end QGen
